import Mathlib

/-!
Verification of the trading-bot core (src/bot.py): indicator library, weighted
scoring engine, and the forecast lifecycle (store + stop-loss/take-profit
evaluator).  Python floats are modelled by exact rationals; Python's `x ** 0.5`
is modelled by `ratSqrt`, an exact rational square root on rationals whose
numerator and denominator are perfect squares (all concrete inputs evaluated
here have rational roots, e.g. variance 0).  Division by zero in `ℚ` yields 0;
every place the source could divide by zero is either explicitly guarded in the
source or unreachable on the inputs considered.  `Option` models Python `None`
entries of indicator series.
-/

/- Core marks the rational-number arithmetic `@[irreducible]`, which blocks
tactic-level evaluation of the embedded functions on concrete inputs (the
kernel itself unfolds them regardless).  Re-marking them semireducible within
this file lets `decide` evaluate concrete runs of the embedded program. -/
attribute [local semireducible] Rat.mul Rat.add Rat.sub Rat.inv

/-- One OHLCV candle (the dicts built in `fetch_candles`, src/bot.py 151-158). -/
structure Candle where
  time : ℤ
  open_ : ℚ
  high : ℚ
  low : ℚ
  close : ℚ
  volume : ℚ
deriving DecidableEq, Inhabited

/-- Python's built-in banker's rounding `round(x)` (round half to even). -/
def pyRound (q : ℚ) : ℤ :=
  let f := ⌊q⌋
  let r := q - (f : ℚ)
  if r < 1/2 then f
  else if 1/2 < r then f + 1
  else if f % 2 = 0 then f else f + 1

/-- Largest `k ≤ fuel` with `k * k ≤ n` (downward search), a structurally
recursive natural square root. -/
def sqrtDown : ℕ → ℕ → ℕ
  | 0, _ => 0
  | k + 1, n => if (k + 1) * (k + 1) ≤ n then k + 1 else sqrtDown k n

/-- Natural square root, exact on perfect squares. -/
def natSqrt (n : ℕ) : ℕ := sqrtDown n n

/-- Models Python `x ** 0.5`: exact when numerator and denominator are perfect
squares (in particular `ratSqrt 0 = 0`), an integer-sqrt approximation
otherwise.  All concrete inputs in this development are perfect squares. -/
def ratSqrt (q : ℚ) : ℚ := (natSqrt q.num.toNat : ℚ) / (natSqrt q.den : ℚ)

/-- The source's `last = lambda lst: next((v for v in reversed(lst) if v is not
None), None)` (src/bot.py 270): last defined entry of a series. -/
def lastSome (l : List (Option ℚ)) : Option ℚ := l.reverse.findSome? id

/-- Number of defined entries of a series. -/
def countSome (l : List (Option ℚ)) : ℕ := (l.filterMap id).length

/-- `calc_ema` (src/bot.py 174-181): seeded with the SMA of the first `period`
values at index `period-1`, then `r[i] = data[i]*k + r[i-1]*(1-k)` with
`k = 2/(period+1)`; entirely undefined when the input is shorter than
`period`. -/
def calc_ema (data : List ℚ) (period : ℕ) : List (Option ℚ) :=
  if data.length < period then List.replicate data.length none
  else
    let k : ℚ := 2 / ((period : ℚ) + 1)
    let seed : ℚ := (data.take period).sum / (period : ℚ)
    List.replicate (period - 1) none ++
      ((data.drop period).scanl (fun prev x => x * k + prev * (1 - k)) seed).map
        (fun v => some v)

/-- `calc_sma` (src/bot.py 183-187): trailing arithmetic mean, defined from
index `period-1` onward. -/
def calc_sma (data : List ℚ) (period : ℕ) : List (Option ℚ) :=
  (List.range data.length).map (fun i =>
    if i + 1 < period then none
    else some (((data.drop (i + 1 - period)).take period).sum / (period : ℚ)))

/-- Consecutive deltas `closes[i] - closes[i-1]` (src/bot.py 194, 200). -/
def deltas (closes : List ℚ) : List ℚ :=
  (closes.zip closes.tail).map (fun p => p.2 - p.1)

/-- Wilder smoothing step of `calc_rsi` (src/bot.py 200-202): the state is the
pair (avgGain, avgLoss). -/
def rsiStep (period : ℕ) (s : ℚ × ℚ) (d : ℚ) : ℚ × ℚ :=
  ((s.1 * ((period : ℚ) - 1) + max d 0) / (period : ℚ),
   (s.2 * ((period : ℚ) - 1) + max (-d) 0) / (period : ℚ))

/-- Seed state of `calc_rsi` (src/bot.py 193-197): simple means of the positive
parts and negative magnitudes of the first `period` deltas. -/
def rsiSeed (period : ℕ) (ds : List ℚ) : ℚ × ℚ :=
  ((ds.map (fun d => max d 0)).sum / (period : ℚ),
   (ds.map (fun d => max (-d) 0)).sum / (period : ℚ))

/-- `100 - 100/(1+RS)` with RS treated as infinite when avgLoss = 0
(src/bot.py 198, 203): the `float('inf')` branch yields exactly 100. -/
def rsiFromState (s : ℚ × ℚ) : ℚ :=
  if s.2 = 0 then 100 else 100 - 100 / (1 + s.1 / s.2)

/-- The sequence of Wilder (avgGain, avgLoss) states produced by the `calc_rsi`
loop, one per defined RSI index (index `period + j` holds state `j`). -/
def rsiStates (closes : List ℚ) (period : ℕ) : List (ℚ × ℚ) :=
  let ds := deltas closes
  (ds.drop period).scanl (rsiStep period) (rsiSeed period (ds.take period))

/-- `calc_rsi` (src/bot.py 189-204): undefined below index `period`, Wilder
smoothed RSI from index `period` onward. -/
def calc_rsi (closes : List ℚ) (period : ℕ) : List (Option ℚ) :=
  if closes.length < period + 1 then List.replicate closes.length none
  else
    List.replicate period none ++
      (rsiStates closes period).map (fun s => some (rsiFromState s))

/-- The signal-line re-expansion loop of `calc_macd` (src/bot.py 211-214): walk
the full-length MACD line, and wherever it is defined emit `sr[si]` (or `None`
past the end of `sr`) and advance the cursor `si`. -/
def expandGo (sr : List (Option ℚ)) : List (Option ℚ) → ℕ → List (Option ℚ)
  | [], _ => []
  | none :: rest, si => none :: expandGo sr rest si
  | some _ :: rest, si => sr.getD si none :: expandGo sr rest (si + 1)

/-- Result record of `calc_macd`: MACD line, signal line, histogram. -/
structure Macd where
  ml : List (Option ℚ)
  sl : List (Option ℚ)
  hist : List (Option ℚ)
deriving DecidableEq

/-- `calc_macd` (src/bot.py 206-216): line = EMA(fast) − EMA(slow) pointwise;
signal = EMA(sig) of the compacted defined line values, re-expanded by a
cursor; histogram = line − signal pointwise. -/
def calc_macd (closes : List ℚ) (fast slow sig : ℕ) : Macd :=
  let ef := calc_ema closes fast
  let es := calc_ema closes slow
  let ml := (List.range closes.length).map (fun i =>
    match ef.getD i none, es.getD i none with
    | some a, some b => some (a - b)
    | _, _ => none)
  let valid := ml.filterMap id
  let sr := calc_ema valid sig
  let sl := expandGo sr ml 0
  let hist := (List.range closes.length).map (fun i =>
    match ml.getD i none, sl.getD i none with
    | some a, some b => some (a - b)
    | _, _ => none)
  ⟨ml, sl, hist⟩

/-- Result record of `calc_bollinger`. -/
structure Bollinger where
  upper : List (Option ℚ)
  lower : List (Option ℚ)
  pct : List (Option ℚ)
deriving DecidableEq

/-- One iteration of the `calc_bollinger` loop (src/bot.py 221-231): for index
`i`, the (upper, lower, percentB) triple. -/
def bollingerRow (closes : List ℚ) (period : ℕ) (std_dev : ℚ) (i : ℕ) :
    Option ℚ × Option ℚ × Option ℚ :=
  if i + 1 < period then ((none : Option ℚ), (none : Option ℚ), (none : Option ℚ))
  else
    let window := (closes.drop (i + 1 - period)).take period
    let mean := ((calc_sma closes period).getD i none).getD 0
    let std := ratSqrt ((window.map (fun x => (x - mean) ^ 2)).sum / (period : ℚ))
    let upper := mean + std_dev * std
    let lower := mean - std_dev * std
    let bw := upper - lower
    (some upper, some lower,
      if bw > 0 then some ((closes.getD i 0 - lower) / bw) else none)

/-- `calc_bollinger` (src/bot.py 218-232): rolling mean/population std bands;
percent-B defined only where the band width is positive. -/
def calc_bollinger (closes : List ℚ) (period : ℕ) (std_dev : ℚ) : Bollinger :=
  let rows := (List.range closes.length).map (bollingerRow closes period std_dev)
  ⟨rows.map (fun r => r.1), rows.map (fun r => r.2.1), rows.map (fun r => r.2.2)⟩

/-- `calc_volume_signal` (src/bot.py 234-253): volume ratio against SMA(period)
of volume, thresholded, sign following candle direction. -/
def calc_volume_signal (candles : List Candle) (period : ℕ) : List (Option ℚ) :=
  let vols := candles.map Candle.volume
  let avg_vol := calc_sma vols period
  (candles.zip avg_vol).map (fun p =>
    match p.2 with
    | none => none
    | some av =>
      let vr := if av > 0 then p.1.volume / av else 1
      let bull := p.1.close ≥ p.1.open_
      some (if vr > 3/2 then (if bull then 4/5 else -(4/5))
        else if vr > 6/5 then (if bull then 2/5 else -(2/5))
        else if vr < 3/5 then 0
        else (if bull then 1/5 else -(1/5))))

/-- `calc_sr` (src/bot.py 255-262): support/resistance levels as the mean of
the last 3 detected pivot lows/highs over symmetric windows (0 when none). -/
def calc_sr (candles : List Candle) (lb : ℕ) : ℚ × ℚ :=
  let idxs := (List.range (candles.length - lb)).drop lb
  let sup := idxs.filterMap (fun i =>
    let w := (candles.drop (i - lb)).take (2 * lb + 1)
    let ci := candles.getD i default
    match (w.map Candle.low).min? with
    | some m => if ci.low ≤ m then some ci.low else none
    | none => none)
  let res := idxs.filterMap (fun i =>
    let w := (candles.drop (i - lb)).take (2 * lb + 1)
    let ci := candles.getD i default
    match (w.map Candle.high).max? with
    | some m => if ci.high ≥ m then some ci.high else none
    | none => none)
  let avg : List ℚ → ℚ := fun lst =>
    if lst = [] then 0
    else
      let l3 := lst.drop (lst.length - 3)
      l3.sum / (l3.length : ℚ)
  (avg sup, avg res)

/-- One risk profile of `RISK_PROFILES` (src/bot.py 36-55). -/
structure RiskProfile where
  signal_threshold : ℚ
  rsi_oversold : ℚ
  rsi_overbought : ℚ
  wRSI : ℚ
  wMACD : ℚ
  wEMA : ℚ
  wSMA : ℚ
  wSR : ℚ
  wBB : ℚ
  wVOL : ℚ
  label : String
deriving DecidableEq

/-- The `konservativ` profile (src/bot.py 37-42). -/
def konservativ : RiskProfile :=
  ⟨1/2, 25, 75, 1/4, 9/50, 17/100, 9/50, 3/25, 1/20, 1/20, "Konservativ"⟩

/-- The `ausgewogen` profile (src/bot.py 43-48). -/
def ausgewogen : RiskProfile :=
  ⟨3/10, 35, 65, 11/50, 11/50, 17/100, 13/100, 13/100, 7/100, 3/50, "Ausgewogen"⟩

/-- The `aggressiv` profile (src/bot.py 49-54). -/
def aggressiv : RiskProfile :=
  ⟨3/20, 45, 55, 9/50, 1/4, 11/50, 9/100, 13/100, 7/100, 3/50, "Aggressiv"⟩

/-- `RISK_PROFILES.get(risk_key, RISK_PROFILES["ausgewogen"])`
(src/bot.py 266): unknown keys fall back to the balanced profile. -/
def riskProfile (key : String) : RiskProfile :=
  if key = "konservativ" then konservativ
  else if key = "ausgewogen" then ausgewogen
  else if key = "aggressiv" then aggressiv
  else ausgewogen

/-- One score component appended to `scores` in `analyze`. -/
structure ScoreC where
  name : String
  score : ℚ
  weight : ℚ
deriving DecidableEq

/-- The composite-score aggregation of `analyze` (src/bot.py 343-344):
`tw = sum(weights) or 1; ws = sum(score*weight)/tw`. -/
def compositeScore (scores : List ScoreC) : ℚ :=
  let tw0 := (scores.map ScoreC.weight).sum
  let tw := if tw0 = 0 then 1 else tw0
  (scores.map (fun x => x.score * x.weight)).sum / tw

/-- The classification branch of `analyze` (src/bot.py 348-351): signal and
(unrounded) confidence from the composite score and the profile threshold. -/
def classify (thr ws : ℚ) : String × ℚ :=
  if ws > thr then ("KAUFEN", min (50 + ws * 50) 95)
  else if ws < -thr then ("VERKAUFEN", min (50 + |ws| * 50) 95)
  else ("ABWARTEN", max 38 (50 - |ws| * 70))

/-- Result record of `analyze` (src/bot.py 353-356); the presentation-only
`explanations` strings are not modelled. -/
structure AnalyzeResult where
  signal : String
  confidence : ℤ
  score : ℚ
  scores : List ScoreC
  volatility : ℚ
  price : ℚ
  rsi : Option ℚ
  risk : String
  bb_pct : Option ℚ
  bb_upper : Option ℚ
  bb_lower : Option ℚ
deriving DecidableEq

/-- `analyze` (src/bot.py 265-356): compute all indicator series, score the
last defined value of each via the fixed piecewise rules, aggregate with the
profile weights, and classify against the profile threshold. -/
def analyze (candles : List Candle) (risk_key : String) : AnalyzeResult :=
  let risk := riskProfile risk_key
  let closes := candles.map Candle.close
  let price := closes.getLastD 0
  let rsi_v := calc_rsi closes 14
  let macd_v := calc_macd closes 12 26 9
  let ema20 := calc_ema closes 20
  let ema50 := calc_ema closes 50
  let sma200 := calc_sma closes (min 200 closes.length)
  let bb := calc_bollinger closes 20 2
  let vol_s := calc_volume_signal candles 20
  let sr := calc_sr candles 5
  let support := sr.1
  let resistance := sr.2
  let rv := lastSome rsi_v
  let rsiComp : List ScoreC :=
    match rv with
    | none => []
    | some r =>
      let s : ℚ :=
        if r < risk.rsi_oversold - 10 then 1
        else if r < risk.rsi_oversold then 7/10
        else if r > risk.rsi_overbought + 10 then -1
        else if r > risk.rsi_overbought then -(7/10)
        else if r < 48 then 1/5
        else if r > 52 then -(1/5)
        else 0
      [⟨"RSI", s, risk.wRSI⟩]
  let mv := lastSome macd_v.ml
  let sv := lastSome macd_v.sl
  let hv := lastSome macd_v.hist
  let macdComp : List ScoreC :=
    match mv, sv with
    | some m, some sg =>
      let s0 : ℚ := if m > sg then 4/5 else -(4/5)
      let s : ℚ :=
        match hv with
        | some hh => if |hh| < |m| * (1/20) then s0 * (7/20) else s0
        | none => s0
      [⟨"MACD", s, risk.wMACD⟩]
    | _, _ => []
  let emaComp : List ScoreC :=
    match lastSome ema20, lastSome ema50 with
    | some e20, some e50 =>
      [⟨"EMA20/50", if e20 > e50 then 7/10 else -(7/10), risk.wEMA⟩]
    | _, _ => []
  let smaComp : List ScoreC :=
    match lastSome sma200 with
    | some s200 => [⟨"SMA200", if price > s200 then 3/5 else -(3/5), risk.wSMA⟩]
    | none => []
  let srComp : List ScoreC :=
    if support ≠ 0 ∧ resistance ≠ 0 ∧ resistance > support then
      let pos := (price - support) / (resistance - support)
      let s : ℚ :=
        if pos < 1/5 then 17/20 else if pos > 4/5 then -(17/20)
        else if pos < 1/2 then 1/4 else -(1/4)
      [⟨"S/R Zone", s, risk.wSR⟩]
    else []
  let bb_pct := lastSome bb.pct
  let bb_upper := lastSome bb.upper
  let bb_lower := lastSome bb.lower
  let bbComp : List ScoreC :=
    match bb_pct with
    | some p =>
      let s : ℚ :=
        if p < 1/10 then 9/10 else if p < 1/5 then 1/2
        else if p > 9/10 then -(9/10) else if p > 4/5 then -(1/2) else 0
      [⟨"Bollinger", s, risk.wBB⟩]
    | none => []
  let volComp : List ScoreC :=
    match lastSome vol_s with
    | some vs => [⟨"Volumen", vs, risk.wVOL⟩]
    | none => []
  let scores := rsiComp ++ macdComp ++ emaComp ++ smaComp ++ srComp ++ bbComp ++ volComp
  let ws := compositeScore scores
  let rets := ((List.range closes.length).drop (max 1 (closes.length - 20))).map
    (fun i => (closes.getD i 0 - closes.getD (i - 1) 0) / closes.getD (i - 1) 0)
  let vol : ℚ :=
    if rets = [] then 0
    else ratSqrt ((rets.map (fun r => r ^ 2)).sum / (rets.length : ℚ)) * 100
  let cls := classify risk.signal_threshold ws
  { signal := cls.1, confidence := pyRound cls.2, score := ws, scores := scores,
    volatility := vol, price := price, rsi := rv, risk := risk_key,
    bb_pct := bb_pct, bb_upper := bb_upper, bb_lower := bb_lower }

/-- A row of the `forecasts` table (src/bot.py 63-81); timestamps are modelled
as integers, the `evaluated` flag and hit flags as booleans. -/
structure Forecast where
  id : ℕ
  symbol : String
  signal : String
  confidence : ℤ
  entry_price : ℚ
  exit_price : Option ℚ
  risk_profile : String
  return_pct : Option ℚ
  outcome : Option String
  sl_hit : Bool
  tp_hit : Bool
  pnl_usdt : Option ℚ
  created_at : ℤ
  eval_at : ℤ
  evaluated : Bool
deriving DecidableEq

/-- `save_forecast` (src/bot.py 92-102).  The source samples the clock twice:
`eval_time` is computed from the FIRST `datetime.now()` call (line 93) plus the
horizon, while `created_at` is a SECOND, later `datetime.now()` call
(line 100).  `now1`/`now2` model the two samples in call order; `horizon`
models `timedelta(hours=EVAL_HOURS)`. -/
def save_forecast (db : List Forecast) (symbol signal : String) (confidence : ℤ)
    (entry_price : ℚ) (risk_profile : String) (now1 now2 horizon : ℤ) :
    List Forecast :=
  db ++ [{ id := db.length + 1, symbol := symbol, signal := signal,
           confidence := confidence, entry_price := entry_price,
           exit_price := none, risk_profile := risk_profile, return_pct := none,
           outcome := none, sl_hit := false, tp_hit := false, pnl_usdt := none,
           created_at := now2, eval_at := now1 + horizon, evaluated := false }]

/-- `mark_evaluated` (src/bot.py 114-122): `UPDATE forecasts SET ... WHERE
id=?` — the update is keyed by id only, with NO `evaluated=0` /
status-is-pending guard. -/
def mark_evaluated (db : List Forecast) (fid : ℕ) (exit_price ret : ℚ)
    (outcome : String) (slh tph : Bool) (pnl : ℚ) : List Forecast :=
  db.map (fun f =>
    if f.id = fid then
      { f with exit_price := some exit_price, return_pct := some ret,
               outcome := some outcome, sl_hit := slh, tp_hit := tph,
               pnl_usdt := some pnl, evaluated := true }
    else f)

/-- The derived fields computed by `evaluate_with_sl_tp`. -/
structure EvalResult where
  ret : ℚ
  sl_hit : Bool
  tp_hit : Bool
  outcome : String
  pnl : ℚ
deriving DecidableEq

/-- The pure computation of `evaluate_with_sl_tp` (src/bot.py 368-397) once the
exit price is in hand: return percentage, SL/TP trigger flags, outcome
classification, and P&L with the SL override applied before the TP override. -/
def evalOutcome (signal : String) (entry exitP slPct tpPct size : ℚ) : EvalResult :=
  let ret := (exitP - entry) / entry * 100
  let t : Bool × Bool × String :=
    if signal = "KAUFEN" then
      (decide (exitP ≤ entry * (1 - slPct / 100)),
       decide (exitP ≥ entry * (1 + tpPct / 100)),
       if ret > 3/10 then "KORREKT" else if ret < -(3/10) then "FALSCH" else "NEUTRAL")
    else if signal = "VERKAUFEN" then
      (decide (exitP ≥ entry * (1 + slPct / 100)),
       decide (exitP ≤ entry * (1 - tpPct / 100)),
       if ret < -(3/10) then "KORREKT" else if ret > 3/10 then "FALSCH" else "NEUTRAL")
    else (false, false, "NEUTRAL")
  let slh := t.1
  let tph := t.2.1
  let outcome := t.2.2
  let pnl0 : ℚ :=
    if signal = "KAUFEN" then size * (ret / 100)
    else if signal = "VERKAUFEN" then size * (-ret / 100)
    else 0
  let pnl1 : ℚ := if slh then -(size * (slPct / 100)) else pnl0
  let pnl2 : ℚ := if tph then size * (tpPct / 100) else pnl1
  ⟨ret, slh, tph, outcome, pnl2⟩

/-- `evaluate_with_sl_tp` acting on the store (src/bot.py 359-402): `fetched`
models the `fetch_price` result; on `None` the call aborts without touching the
store, otherwise the derived fields are written through `mark_evaluated`. -/
def evaluate_with_sl_tp (db : List Forecast) (fid : ℕ) (signal : String)
    (entry : ℚ) (fetched : Option ℚ) (slPct tpPct size : ℚ) :
    List Forecast × Option EvalResult :=
  match fetched with
  | none => (db, none)
  | some exitP =>
    let r := evalOutcome signal entry exitP slPct tpPct size
    (mark_evaluated db fid exitP r.ret r.outcome r.sl_hit r.tp_hit r.pnl, some r)

/-! ### Concrete inputs used by counterexamples and witnesses -/

/-- Twenty identical candles (close 100, volume 1): the spec's flat-closes
example input. -/
def candles20 : List Candle := List.replicate 20 ⟨0, 100, 100, 100, 100, 1⟩

/-- Twenty identical candles (close 50, volume 2): a sequence far shorter than
200 candles. -/
def candlesC4 : List Candle := List.replicate 20 ⟨0, 50, 50, 50, 50, 2⟩

/-- A store holding one pending BUY forecast with entry price 100. -/
def db0 : List Forecast :=
  [{ id := 1, symbol := "BTCUSDT", signal := "KAUFEN", confidence := 80,
     entry_price := 100, exit_price := none, risk_profile := "ausgewogen",
     return_pct := none, outcome := none, sl_hit := false, tp_hit := false,
     pnl_usdt := none, created_at := 0, eval_at := 14400, evaluated := false }]

/-! ### Claim theorems -/

/-- Claim C1, counterexample: `mark_evaluated` carries no `status = PENDING`
guard, so calling `evaluate_with_sl_tp` twice on the same forecast mutates the
stored record twice — the first call changes the store, and a second call with
a different fetched price changes it again (it is not a no-op). -/
theorem evaluate_twice_mutates_twice :
    (evaluate_with_sl_tp db0 1 "KAUFEN" 100 (some 97) (3/2) 3 1000).1 ≠ db0 ∧
    (evaluate_with_sl_tp (evaluate_with_sl_tp db0 1 "KAUFEN" 100 (some 97) (3/2) 3 1000).1
        1 "KAUFEN" 100 (some 103) (3/2) 3 1000).1 ≠
      (evaluate_with_sl_tp db0 1 "KAUFEN" 100 (some 97) (3/2) 3 1000).1 := by
  decide

/-- Claim C1, amended: the update in `mark_evaluated` is keyed by id only
(`WHERE id=?` with no `evaluated=0` guard), so a second evaluation is NOT a
no-op: it overwrites every evaluation field — the store after two calls equals
the store after the second call alone (last writer wins). -/
theorem mark_evaluated_second_call_overwrites (db : List Forecast) (fid : ℕ)
    (e1 r1 : ℚ) (o1 : String) (s1 t1 : Bool) (p1 : ℚ)
    (e2 r2 : ℚ) (o2 : String) (s2 t2 : Bool) (p2 : ℚ) :
    mark_evaluated (mark_evaluated db fid e1 r1 o1 s1 t1 p1) fid e2 r2 o2 s2 t2 p2 =
      mark_evaluated db fid e2 r2 o2 s2 t2 p2 := by
  unfold mark_evaluated
  rw [List.map_map]
  congr 1
  funext f
  by_cases h : f.id = fid <;> simp [h]

set_option maxRecDepth 100000 in
/-- Claim C2, counterexample: on 20 identical closes `analyze` does NOT yield
composite score 0 or HOLD with confidence 50. -/
theorem analyze_identical_closes_not_hold :
    (analyze candles20 "ausgewogen").signal ≠ "ABWARTEN" ∧
    (analyze candles20 "ausgewogen").score ≠ 0 ∧
    (analyze candles20 "ausgewogen").confidence ≠ 50 := by
  decide

set_option maxRecDepth 100000 in
/-- Claim C2, amended: on 20 identical closes the flat deltas make the Wilder
average loss 0, so RSI = 100 (not neutral) and the RSI component scores −1.0;
the SMA component is computed over period min(200, 20) = 20 and fires −0.6;
the volume component fires +0.2 (ratio 1, bullish tie); MACD/EMA-cross/SR/
Bollinger are excluded.  Composite = −143/205 ≈ −0.70, so the signal is SELL
with confidence round(50 + |ws|·50) = 85, and volatility is 0. -/
theorem analyze_identical_closes_value :
    (analyze candles20 "ausgewogen").signal = "VERKAUFEN" ∧
    (analyze candles20 "ausgewogen").score = -143/205 ∧
    (analyze candles20 "ausgewogen").confidence = 85 ∧
    (analyze candles20 "ausgewogen").rsi = some 100 ∧
    (analyze candles20 "ausgewogen").volatility = 0 ∧
    (analyze candles20 "ausgewogen").scores.map (fun s => (s.name, s.score)) =
      [("RSI", -1), ("SMA200", -(3/5)), ("Volumen", 1/5)] := by
  decide

/-- Claim C3, counterexample: with the first clock sample at 0, the second at 1
and a horizon of 14400, the stored forecast has `created_at = 1` and
`eval_at = 14400 ≠ created_at + 14400` — `eval_at` does not exceed
`created_at` by exactly the horizon. -/
theorem save_forecast_evalAt_drift :
    (save_forecast [] "BTCUSDT" "KAUFEN" 80 100 "ausgewogen" 0 1 14400).map
        (fun r => (r.created_at, r.eval_at)) = [(1, 14400)] ∧
    (14400 : ℤ) ≠ 1 + 14400 := by
  decide

/-- Claim C3, amended: the created forecast has `eval_at = now1 + horizon`
where `now1` is the FIRST clock sample, while `created_at` is a SECOND, later
sample; hence `eval_at ≤ created_at + horizon`, with equality exactly when the
two samples coincide. -/
theorem save_forecast_evalAt_characterization (db : List Forecast)
    (sy sg : String) (cf : ℤ) (ep : ℚ) (rp : String) (now1 now2 horizon : ℤ)
    (h : now1 ≤ now2) :
    ∃ r : Forecast,
      save_forecast db sy sg cf ep rp now1 now2 horizon = db ++ [r] ∧
      r.eval_at = now1 + horizon ∧
      r.created_at = now2 ∧
      r.eval_at ≤ r.created_at + horizon ∧
      (r.eval_at = r.created_at + horizon ↔ now1 = now2) := by
  refine ⟨_, rfl, rfl, rfl, ?_, ?_⟩
  · dsimp only
    omega
  · dsimp only
    omega

/-- Claim C3, witness: when the two clock samples coincide the offset is
exactly the horizon. -/
theorem save_forecast_evalAt_witness :
    ∃ r : Forecast,
      save_forecast [] "BTCUSDT" "KAUFEN" 80 100 "ausgewogen" 5 5 14400 = [] ++ [r] ∧
      r.eval_at = 5 + 14400 ∧
      r.created_at = 5 ∧
      r.eval_at ≤ r.created_at + 14400 ∧
      (r.eval_at = r.created_at + 14400 ↔ (5 : ℤ) = 5) :=
  save_forecast_evalAt_characterization [] "BTCUSDT" "KAUFEN" 80 100 "ausgewogen"
    5 5 14400 (by decide)

set_option maxRecDepth 100000 in
/-- Claim C4, counterexample: with only 20 candles (fewer than 200), the
Price-vs-SMA200 component DOES contribute a score component — `analyze` builds
it from `calc_sma(closes, min(200, len(closes)))`. -/
theorem analyze_sma_fires_under_200 :
    (⟨"SMA200", -(3/5), 13/100⟩ : ScoreC) ∈ (analyze candlesC4 "ausgewogen").scores ∧
    candlesC4.length < 200 := by
  decide

/-- Claim C6: for a BUY forecast with entry 100, SL 1.5 %, TP 3 % and sampled
exit price 97, evaluation sets the stop-loss flag, returns −3 %, classifies
WRONG, and the P&L is overridden to exactly −1.5 % of the 1000 trade size. -/
theorem evalOutcome_buy_sl_example :
    (evalOutcome "KAUFEN" 100 97 (3/2) 3 1000).sl_hit = true ∧
    (evalOutcome "KAUFEN" 100 97 (3/2) 3 1000).tp_hit = false ∧
    (evalOutcome "KAUFEN" 100 97 (3/2) 3 1000).ret = -3 ∧
    (evalOutcome "KAUFEN" 100 97 (3/2) 3 1000).outcome = "FALSCH" ∧
    (evalOutcome "KAUFEN" 100 97 (3/2) 3 1000).pnl = -15 ∧
    (-15 : ℚ) = -(1000 * ((3/2) / 100)) := by
  decide

/-- Claim C9, counterexample: a single firing component with score 4/5 and
configured weight 0 yields composite score 0, not the raw score — the
`or 1` fallback denominator kicks in. -/
theorem compositeScore_zero_weight :
    compositeScore [⟨"RSI", 4/5, 0⟩] = 0 ∧ compositeScore [⟨"RSI", 4/5, 0⟩] ≠ 4/5 := by
  decide

/-- Claim C9, amended: if exactly one component fires, the composite score
equals that component's raw score for every NONZERO configured weight (all
weights of the three predefined profiles are positive, so this covers every
reachable configuration); with weight 0 the fallback makes the composite 0. -/
theorem compositeScore_single_component (nm : String) (s w : ℚ) (hw : w ≠ 0) :
    compositeScore [⟨nm, s, w⟩] = s := by
  simp [compositeScore, hw]

/-- Claim C9, witness: a lone RSI component with score 7/10 and weight 11/50
yields composite 7/10. -/
theorem compositeScore_single_witness :
    compositeScore [⟨"RSI", 7/10, 11/50⟩] = 7/10 :=
  compositeScore_single_component "RSI" (7/10) (11/50) (by norm_num)

/-- Claim C5: the final P&L equals trade size × signed return / 100, but is
overridden to −size·slPct/100 when the stop-loss flag is set and then to
+size·tpPct/100 when the take-profit flag is set — the TP override is applied
after the SL override, so TP takes precedence if both flags are true. -/
theorem evalOutcome_pnl_override (signal : String) (entry exitP slPct tpPct size : ℚ) :
    ((evalOutcome signal entry exitP slPct tpPct size).pnl =
      (if (evalOutcome signal entry exitP slPct tpPct size).tp_hit then size * (tpPct / 100)
       else if (evalOutcome signal entry exitP slPct tpPct size).sl_hit then
         -(size * (slPct / 100))
       else if signal = "KAUFEN" then size * ((exitP - entry) / entry * 100 / 100)
       else if signal = "VERKAUFEN" then size * (-((exitP - entry) / entry * 100) / 100)
       else 0)) ∧
    ((evalOutcome signal entry exitP slPct tpPct size).tp_hit = true →
      (evalOutcome signal entry exitP slPct tpPct size).pnl = size * (tpPct / 100)) := by
  constructor
  · unfold evalOutcome
    dsimp only
  · intro h
    unfold evalOutcome at h ⊢
    dsimp only at h ⊢
    simp [h]

/-! ### List indexing helpers -/

/-- A defined value read via `getD` with default `none` is a member. -/
lemma getD_none_eq_some_mem :
    ∀ (l : List (Option ℚ)) (i : ℕ) (v : ℚ), l.getD i none = some v → some v ∈ l := by
  intro l
  induction l with
  | nil => intro i v h; cases i <;> simp [List.getD] at h
  | cons a t ih =>
    intro i v h
    cases i with
    | zero =>
      rw [List.getD_cons_zero] at h
      rw [← h]
      exact List.mem_cons_self a t
    | succ n =>
      rw [List.getD_cons_succ] at h
      exact List.mem_cons_of_mem a (ih n v h)

/-- Every element of a `scanl` satisfies an invariant preserved by the step
function and holding at the seed. -/
lemma scanl_forall {α β : Type} (f : β → α → β) (P : β → Prop)
    (hstep : ∀ b a, P b → P (f b a)) :
    ∀ (l : List α) (b : β), P b → ∀ x ∈ List.scanl f b l, P x := by
  intro l
  induction l with
  | nil =>
    intro b hb x hx
    simp [List.scanl] at hx
    rwa [hx]
  | cons a t ih =>
    intro b hb x hx
    rw [List.scanl_cons] at hx
    rcases List.mem_cons.mp hx with h | h
    · rwa [h]
    · exact ih (f b a) (hstep b a hb) x h

/-- Indexing past a leading block of `replicate m none`. -/
lemma getD_replicate_append (m : ℕ) (l2 : List (Option ℚ)) (j : ℕ) :
    (List.replicate m (none : Option ℚ) ++ l2).getD (m + j) none = l2.getD j none := by
  induction m with
  | zero => simp
  | succ n ih =>
    rw [show n + 1 + j = (n + j) + 1 from by omega, List.replicate_succ]
    simpa using ih

/-- Indexing a `map (some ∘ f)` at an in-range position. -/
lemma getD_map_someF (f : ℚ × ℚ → ℚ) :
    ∀ (l : List (ℚ × ℚ)) (j : ℕ) (hj : j < l.length),
      (l.map (fun s => some (f s))).getD j none = some (f (l.get ⟨j, hj⟩)) := by
  intro l
  induction l with
  | nil => intro j hj; exact absurd hj (by simp)
  | cons a t ih =>
    intro j hj
    cases j with
    | zero => rfl
    | succ n => exact ih n (Nat.lt_of_succ_lt_succ (by simpa using hj))

/-! ### RSI bounds (Wilder state invariants) -/

/-- Both components of every Wilder smoothing state are non-negative. -/
lemma rsiStates_nonneg (closes : List ℚ) (period : ℕ) (hp : 0 < period) :
    ∀ s ∈ rsiStates closes period, 0 ≤ s.1 ∧ 0 ≤ s.2 := by
  have hp1 : (1 : ℚ) ≤ (period : ℚ) := by exact_mod_cast hp
  have hp0 : (0 : ℚ) ≤ (period : ℚ) := by linarith
  unfold rsiStates
  apply scanl_forall (rsiStep period) (fun s => 0 ≤ s.1 ∧ 0 ≤ s.2)
  · intro b a hb
    unfold rsiStep
    constructor
    · exact div_nonneg (by nlinarith [le_max_right a (0 : ℚ), hb.1]) hp0
    · exact div_nonneg (by nlinarith [le_max_right (-a) (0 : ℚ), hb.2]) hp0
  · unfold rsiSeed
    constructor
    · refine div_nonneg (List.sum_nonneg ?_) hp0
      intro x hx
      rcases List.mem_map.mp hx with ⟨d, _, hd⟩
      rw [← hd]
      exact le_max_right d 0
    · refine div_nonneg (List.sum_nonneg ?_) hp0
      intro x hx
      rcases List.mem_map.mp hx with ⟨d, _, hd⟩
      rw [← hd]
      exact le_max_right (-d) 0

/-- From a state with non-negative average gain and loss, the RSI value lies in
[0, 100] and equals 100 exactly when the average loss is 0. -/
lemma rsiFromState_spec (s : ℚ × ℚ) (h1 : 0 ≤ s.1) (h2 : 0 ≤ s.2) :
    (0 ≤ rsiFromState s ∧ rsiFromState s ≤ 100) ∧ (rsiFromState s = 100 ↔ s.2 = 0) := by
  unfold rsiFromState
  by_cases h : s.2 = 0
  · simp [h]
  · rw [if_neg h]
    have hpos : 0 < s.2 := lt_of_le_of_ne h2 (Ne.symm h)
    have hrs : 0 ≤ s.1 / s.2 := div_nonneg h1 h2
    have hden : 0 < 1 + s.1 / s.2 := by linarith
    have ht : 0 < 100 / (1 + s.1 / s.2) := div_pos (by norm_num) hden
    have ht2 : 100 / (1 + s.1 / s.2) ≤ 100 := by
      rw [div_le_iff₀ hden]
      nlinarith
    refine ⟨⟨by linarith, by linarith⟩, ?_, fun hq => absurd hq h⟩
    intro hq
    exfalso
    linarith

/-- Claim C7: every defined value of `calc_rsi` lies in [0, 100]; moreover the
value at index `period + j` is computed from the j-th Wilder state and equals
100 exactly when that state's smoothed average loss is 0 (the `float('inf')`
branch of the source) — in particular no division by zero occurs. -/
theorem rsi_bounds (closes : List ℚ) (period : ℕ) (hp : 0 < period) :
    (∀ i v, (calc_rsi closes period).getD i none = some v → 0 ≤ v ∧ v ≤ 100) ∧
    (period + 1 ≤ closes.length →
      ∀ j, ∀ hj : j < (rsiStates closes period).length,
        (calc_rsi closes period).getD (period + j) none =
          some (rsiFromState ((rsiStates closes period).get ⟨j, hj⟩)) ∧
        (rsiFromState ((rsiStates closes period).get ⟨j, hj⟩) = 100 ↔
          ((rsiStates closes period).get ⟨j, hj⟩).2 = 0)) := by
  constructor
  · intro i v hv
    have hm := getD_none_eq_some_mem _ i v hv
    unfold calc_rsi at hm
    split at hm
    · have := List.eq_of_mem_replicate hm
      simp at this
    · rcases List.mem_append.mp hm with h | h
      · have := List.eq_of_mem_replicate h
        simp at this
      · rcases List.mem_map.mp h with ⟨s, hs, hsv⟩
        have hnn := rsiStates_nonneg closes period hp s hs
        have hspec := (rsiFromState_spec s hnn.1 hnn.2).1
        have hv2 : rsiFromState s = v := Option.some.inj hsv
        rw [← hv2]
        exact hspec
  · intro hlen j hj
    have hbr : ¬ closes.length < period + 1 := by omega
    constructor
    · unfold calc_rsi
      rw [if_neg hbr, getD_replicate_append, getD_map_someF rsiFromState _ j hj]
    · have hmem : (rsiStates closes period).get ⟨j, hj⟩ ∈ rsiStates closes period :=
        List.get_mem _ _ _
      have hnn := rsiStates_nonneg closes period hp _ hmem
      exact (rsiFromState_spec _ hnn.1 hnn.2).2

/-- Claim C7, witness: on 15 flat closes the RSI at index 14 is defined, equals
100, lies in [0, 100], and its state has average loss 0. -/
theorem rsi_bounds_witness :
    0 ≤ (100 : ℚ) ∧ (100 : ℚ) ≤ 100 :=
  (rsi_bounds (List.replicate 15 100) 14 (by norm_num)).1 14 100 (by decide)

/-! ### MACD signal-line re-expansion -/

/-- Reading past the end of a series yields `none`. -/
lemma getD_of_length_le :
    ∀ (l : List (Option ℚ)) (i : ℕ), l.length ≤ i → l.getD i none = none := by
  intro l
  induction l with
  | nil => intro i _; cases i <;> rfl
  | cons a t ih =>
    intro i hi
    cases i with
    | zero => simp at hi
    | succ k =>
      rw [List.getD_cons_succ]
      exact ih k (by simpa using hi)

/-- Indexing a map over `List.range` at an in-range position. -/
lemma getD_range_map :
    ∀ (n : ℕ) (g : ℕ → Option ℚ) (i : ℕ), i < n →
      ((List.range n).map g).getD i none = g i := by
  intro n
  induction n with
  | zero => intro g i h; omega
  | succ m ih =>
    intro g i h
    rw [List.range_succ_eq_map]
    cases i with
    | zero => rfl
    | succ k =>
      simp only [List.map_cons, List.getD_cons_succ, List.map_map]
      exact ih (g ∘ Nat.succ) k (by omega)

lemma countSome_cons_none (l : List (Option ℚ)) : countSome (none :: l) = countSome l := rfl

lemma countSome_cons_some (v : ℚ) (l : List (Option ℚ)) :
    countSome (some v :: l) = countSome l + 1 := by
  simp [countSome]

/-- The re-expansion loop preserves the series length. -/
lemma expandGo_length (sr : List (Option ℚ)) :
    ∀ (ml : List (Option ℚ)) (si : ℕ), (expandGo sr ml si).length = ml.length := by
  intro ml
  induction ml with
  | nil => intro si; rfl
  | cons a rest ih =>
    intro si
    cases a with
    | none => simpa [expandGo] using ih si
    | some v => simpa [expandGo] using ih (si + 1)

/-- Characterization of the cursor re-expansion: position `i` of the output is
`none` where the MACD line is undefined, and otherwise reads the compacted
series `sr` at the starting cursor plus the number of defined line entries
strictly before `i`. -/
lemma expandGo_getD (sr : List (Option ℚ)) :
    ∀ (ml : List (Option ℚ)) (si i : ℕ),
      (expandGo sr ml si).getD i none =
        (match ml.getD i none with
         | none => none
         | some _ => sr.getD (si + countSome (ml.take i)) none) := by
  intro ml
  induction ml with
  | nil =>
    intro si i
    cases i <;> rfl
  | cons a rest ih =>
    intro si i
    cases a with
    | none =>
      cases i with
      | zero => rfl
      | succ k =>
        show (expandGo sr rest si).getD k none = _
        rw [ih si k]
        rfl
    | some v =>
      cases i with
      | zero =>
        show sr.getD si none = _
        simp [countSome]
      | succ k =>
        show (expandGo sr rest (si + 1)).getD k none = _
        rw [ih (si + 1) k]
        cases hr : rest.getD k none with
        | none =>
          rw [List.getD_cons_succ, hr]
        | some w =>
          rw [List.getD_cons_succ, hr]
          show sr.getD (si + 1 + countSome (rest.take k)) none =
            sr.getD (si + countSome (some v :: rest.take k)) none
          rw [countSome_cons_some]
          congr 1
          omega

/-- The MACD line as constructed in `calc_macd`. -/
lemma calc_macd_ml (closes : List ℚ) (fast slow sig : ℕ) :
    (calc_macd closes fast slow sig).ml =
      (List.range closes.length).map (fun i =>
        match (calc_ema closes fast).getD i none, (calc_ema closes slow).getD i none with
        | some a, some b => some (a - b)
        | _, _ => none) := rfl

/-- The signal line as constructed in `calc_macd`: the re-expansion of
`EMA(sig)` of the compacted defined MACD values. -/
lemma calc_macd_sl (closes : List ℚ) (fast slow sig : ℕ) :
    (calc_macd closes fast slow sig).sl =
      expandGo (calc_ema ((calc_macd closes fast slow sig).ml.filterMap id) sig)
        (calc_macd closes fast slow sig).ml 0 := rfl

/-- The histogram as constructed in `calc_macd`. -/
lemma calc_macd_hist (closes : List ℚ) (fast slow sig : ℕ) :
    (calc_macd closes fast slow sig).hist =
      (List.range closes.length).map (fun i =>
        match (calc_macd closes fast slow sig).ml.getD i none,
              (calc_macd closes fast slow sig).sl.getD i none with
        | some a, some b => some (a - b)
        | _, _ => none) := rfl

/-- Claim C8: at every index, the signal line of `calc_macd` is undefined where
the MACD line is undefined, and where the line is defined it equals EMA(9) of
the compacted sequence of defined MACD-line values, read at the cursor position
given by the number of defined line entries before that index; and the
histogram equals line − signal exactly where both are defined, `none`
elsewhere. -/
theorem macd_signal_hist (closes : List ℚ) (i : ℕ) :
    ((calc_macd closes 12 26 9).sl.getD i none =
      (match (calc_macd closes 12 26 9).ml.getD i none with
       | none => none
       | some _ =>
         (calc_ema ((calc_macd closes 12 26 9).ml.filterMap id) 9).getD
           (countSome ((calc_macd closes 12 26 9).ml.take i)) none)) ∧
    ((calc_macd closes 12 26 9).hist.getD i none =
      (match (calc_macd closes 12 26 9).ml.getD i none,
             (calc_macd closes 12 26 9).sl.getD i none with
       | some a, some b => some (a - b)
       | _, _ => none)) := by
  have hmlen : (calc_macd closes 12 26 9).ml.length = closes.length := by
    rw [calc_macd_ml]; simp
  constructor
  · rw [calc_macd_sl, expandGo_getD]
    simp only [Nat.zero_add]
  · by_cases h : i < closes.length
    · rw [calc_macd_hist, getD_range_map _ _ i h]
    · have h1 : (calc_macd closes 12 26 9).hist.getD i none = none := by
        refine getD_of_length_le _ i ?_
        rw [calc_macd_hist]
        simp only [List.length_map, List.length_range]
        omega
      have h2 : (calc_macd closes 12 26 9).ml.getD i none = none := by
        refine getD_of_length_le _ i ?_
        omega
      rw [h1, h2]

/-! ### Undefinedness below the minimum period -/

/-- A series whose members are all `none` reads `none` at every index. -/
lemma getD_all_none (l : List (Option ℚ)) (h : ∀ x ∈ l, x = none) (i : ℕ) :
    l.getD i none = none := by
  cases hg : l.getD i none with
  | none => rfl
  | some v => exact absurd (h _ (getD_none_eq_some_mem l i v hg)) (by simp)

lemma ema_short_none (data : List ℚ) (p : ℕ) (h : data.length < p) :
    ∀ x ∈ calc_ema data p, x = none := by
  intro x hx
  unfold calc_ema at hx
  rw [if_pos h] at hx
  exact List.eq_of_mem_replicate hx

lemma sma_short_none (data : List ℚ) (p : ℕ) (h : data.length < p) :
    ∀ x ∈ calc_sma data p, x = none := by
  intro x hx
  unfold calc_sma at hx
  rcases List.mem_map.mp hx with ⟨i, hi, hgi⟩
  have hilt : i < data.length := List.mem_range.mp hi
  rw [← hgi, if_pos (by omega)]

lemma rsi_short_none (closes : List ℚ) (p : ℕ) (h : closes.length < p + 1) :
    ∀ x ∈ calc_rsi closes p, x = none := by
  intro x hx
  unfold calc_rsi at hx
  rw [if_pos h] at hx
  exact List.eq_of_mem_replicate hx

/-- The re-expansion of any compacted series over an all-`none` line is
all-`none`. -/
lemma expandGo_all_none (sr : List (Option ℚ)) :
    ∀ (ml : List (Option ℚ)) (si : ℕ), (∀ x ∈ ml, x = none) →
      ∀ y ∈ expandGo sr ml si, y = none := by
  intro ml
  induction ml with
  | nil => intro si _ y hy; simp [expandGo] at hy
  | cons a rest ih =>
    intro si h y hy
    cases a with
    | none =>
      rw [show expandGo sr (none :: rest) si = none :: expandGo sr rest si from rfl] at hy
      rcases List.mem_cons.mp hy with h1 | h1
      · exact h1
      · exact ih si (fun x hx => h x (List.mem_cons_of_mem _ hx)) y h1
    | some v => exact absurd (h (some v) (List.mem_cons_self _ _)) (by simp)

lemma macd_short_none (closes : List ℚ) (h : closes.length < 26) :
    (∀ x ∈ (calc_macd closes 12 26 9).ml, x = none) ∧
    (∀ x ∈ (calc_macd closes 12 26 9).sl, x = none) ∧
    (∀ x ∈ (calc_macd closes 12 26 9).hist, x = none) := by
  have hml : ∀ x ∈ (calc_macd closes 12 26 9).ml, x = none := by
    rw [calc_macd_ml]
    intro x hx
    rcases List.mem_map.mp hx with ⟨i, _, hgi⟩
    rw [← hgi, getD_all_none (calc_ema closes 26) (ema_short_none closes 26 h) i]
    cases (calc_ema closes 12).getD i none <;> rfl
  refine ⟨hml, ?_, ?_⟩
  · rw [calc_macd_sl]
    exact expandGo_all_none _ _ 0 hml
  · rw [calc_macd_hist]
    intro x hx
    rcases List.mem_map.mp hx with ⟨i, _, hgi⟩
    rw [← hgi, getD_all_none _ hml i]

lemma bollinger_short_none (closes : List ℚ) (h : closes.length < 20) :
    ∀ x ∈ (calc_bollinger closes 20 2).pct, x = none := by
  intro x hx
  have hx2 : x ∈ ((List.range closes.length).map (bollingerRow closes 20 2)).map
      (fun r => r.2.2) := hx
  rcases List.mem_map.mp hx2 with ⟨r, hr, hrx⟩
  rcases List.mem_map.mp hr with ⟨i, hi, hir⟩
  have hilt : i < closes.length := List.mem_range.mp hi
  rw [← hrx, ← hir]
  unfold bollingerRow
  rw [if_pos (by omega)]

lemma volume_short_none (candles : List Candle) (h : candles.length < 20) :
    ∀ x ∈ calc_volume_signal candles 20, x = none := by
  intro x hx
  unfold calc_volume_signal at hx
  rcases List.mem_map.mp hx with ⟨p, hp, hpx⟩
  obtain ⟨c, av⟩ := p
  have hmem := List.of_mem_zip hp
  have h2 : av = none :=
    sma_short_none (candles.map Candle.volume) 20 (by simpa using h) av hmem.2
  rw [← hpx]
  dsimp only
  rw [h2]

/-- The last entry of `calc_sma` over its full-length period is defined, so the
series has a defined last value. -/
lemma lastSome_append_some (l : List (Option ℚ)) (v : ℚ) :
    lastSome (l ++ [some v]) = some v := by
  unfold lastSome
  rw [List.reverse_append]
  rfl

lemma lastSome_sma_def (closes : List ℚ) (hne : closes ≠ []) (hlt : closes.length < 200) :
    ∃ v, lastSome (calc_sma closes (min 200 closes.length)) = some v := by
  have hmin : min 200 closes.length = closes.length := by omega
  obtain ⟨m, hm⟩ : ∃ m, closes.length = m + 1 :=
    ⟨closes.length - 1, by have := List.length_pos.mpr hne; omega⟩
  rw [hmin]
  unfold calc_sma
  rw [hm, List.range_succ, List.map_append, List.map_cons, List.map_nil, if_neg (by omega)]
  exact ⟨_, lastSome_append_some _ _⟩

/-- In `analyze`, whenever the (min 200, n)-period SMA has a defined last
value, the component list contains an "SMA200" component. -/
lemma sma_comp_mem (candles : List Candle) (key : String) (v : ℚ)
    (hv : lastSome (calc_sma (candles.map Candle.close)
        (min 200 (candles.map Candle.close).length)) = some v) :
    ∃ sc ∈ (analyze candles key).scores, sc.name = "SMA200" := by
  refine ⟨⟨"SMA200",
    if (candles.map Candle.close).getLastD 0 > v then 3/5 else -(3/5),
    (riskProfile key).wSMA⟩, ?_, rfl⟩
  show _ ∈ (analyze candles key).scores
  simp only [analyze]
  rw [hv]
  simp [List.mem_append]

/-- Claim C4, amended: every indicator function returns an entirely undefined
series when the input is shorter than its minimum period (EMA/SMA: `period`,
RSI: `period+1`, MACD: the slow period 26, Bollinger/volume: 20), and such
indicators contribute no score component; HOWEVER `analyze` computes the
"SMA200" component with period `min(200, n)`, so for every non-empty sequence
of fewer than 200 candles the Price-vs-SMA component still fires. -/
theorem indicators_undefined_below_min_period :
    (∀ (data : List ℚ) (p : ℕ), data.length < p → ∀ x ∈ calc_ema data p, x = none) ∧
    (∀ (data : List ℚ) (p : ℕ), data.length < p → ∀ x ∈ calc_sma data p, x = none) ∧
    (∀ (closes : List ℚ) (p : ℕ), closes.length < p + 1 → ∀ x ∈ calc_rsi closes p, x = none) ∧
    (∀ closes : List ℚ, closes.length < 26 →
      (∀ x ∈ (calc_macd closes 12 26 9).ml, x = none) ∧
      (∀ x ∈ (calc_macd closes 12 26 9).sl, x = none) ∧
      (∀ x ∈ (calc_macd closes 12 26 9).hist, x = none)) ∧
    (∀ closes : List ℚ, closes.length < 20 → ∀ x ∈ (calc_bollinger closes 20 2).pct, x = none) ∧
    (∀ candles : List Candle, candles.length < 20 → ∀ x ∈ calc_volume_signal candles 20, x = none) ∧
    (∀ candles : List Candle, candles ≠ [] → candles.length < 200 →
      ((analyze candles "ausgewogen").scores.any (fun sc => sc.name == "SMA200")) = true) := by
  refine ⟨ema_short_none, sma_short_none, rsi_short_none, macd_short_none,
    bollinger_short_none, volume_short_none, ?_⟩
  intro candles hne hlt
  have hne2 : candles.map Candle.close ≠ [] := by simpa using hne
  have hlt2 : (candles.map Candle.close).length < 200 := by simpa using hlt
  obtain ⟨v, hv⟩ := lastSome_sma_def (candles.map Candle.close) hne2 hlt2
  obtain ⟨sc, hmem, hname⟩ := sma_comp_mem candles "ausgewogen" v hv
  rw [List.any_eq_true]
  exact ⟨sc, hmem, by rw [hname]; exact beq_self_eq_true _⟩

/-- Claim C4, witness: a 2-close series is too short for EMA(14) (its entries
are all undefined), while the 20-candle sequence `candlesC4` still receives an
SMA200 score component. -/
theorem indicators_undefined_witness :
    (none : Option ℚ) = none ∧
    ((analyze candlesC4 "ausgewogen").scores.any (fun sc => sc.name == "SMA200")) = true :=
  ⟨indicators_undefined_below_min_period.1 [1, 2] 14 (by norm_num) none (by decide),
   indicators_undefined_below_min_period.2.2.2.2.2.2 candlesC4 (by decide) (by decide)⟩

/-! ### Confidence range -/

/-- `pyRound` maps a rational in an integer interval into that interval. -/
lemma pyRound_bounds (q : ℚ) (a b : ℤ) (ha : (a : ℚ) ≤ q) (hb : q ≤ (b : ℚ)) :
    a ≤ pyRound q ∧ pyRound q ≤ b := by
  have hf1 : (⌊q⌋ : ℚ) ≤ q := Int.floor_le q
  have hA : a ≤ ⌊q⌋ := Int.le_floor.mpr ha
  have hB : ⌊q⌋ ≤ b := by
    have h : (⌊q⌋ : ℚ) ≤ (b : ℚ) := le_trans hf1 hb
    exact_mod_cast h
  unfold pyRound
  dsimp only
  split_ifs with h1 h2 h3
  · exact ⟨hA, hB⟩
  · refine ⟨by omega, ?_⟩
    have hq : (⌊q⌋ : ℚ) + 1/2 < q := by linarith
    have hlt : (⌊q⌋ : ℚ) < (b : ℚ) := by linarith
    have : ⌊q⌋ < b := by exact_mod_cast hlt
    omega
  · exact ⟨hA, hB⟩
  · refine ⟨by omega, ?_⟩
    have hhalf : (1 : ℚ)/2 ≤ q - ⌊q⌋ := not_lt.mp h1
    have hlt : (⌊q⌋ : ℚ) < (b : ℚ) := by linarith
    have : ⌊q⌋ < b := by exact_mod_cast hlt
    omega

/-- Every classification confidence lies in [38, 95] (before rounding). -/
lemma classify_conf_bounds (thr ws : ℚ) (h : 0 < thr) :
    (38 : ℚ) ≤ (classify thr ws).2 ∧ (classify thr ws).2 ≤ 95 := by
  unfold classify
  split_ifs with h1 h2
  · dsimp only
    constructor
    · refine le_min ?_ (by norm_num)
      nlinarith
    · exact min_le_right _ _
  · dsimp only
    constructor
    · refine le_min ?_ (by norm_num)
      nlinarith [abs_nonneg ws]
    · exact min_le_right _ _
  · dsimp only
    constructor
    · exact le_max_left _ _
    · refine max_le (by norm_num) ?_
      nlinarith [abs_nonneg ws]

/-- In the BUY/SELL branches the unrounded confidence is at least 57.5. -/
lemma classify_signal_gt (thr ws : ℚ) (hthr : 3/20 ≤ thr)
    (hs : (classify thr ws).1 = "KAUFEN" ∨ (classify thr ws).1 = "VERKAUFEN") :
    (115/2 : ℚ) ≤ (classify thr ws).2 := by
  unfold classify at hs ⊢
  split_ifs at hs ⊢ with h1 h2
  · dsimp only
    refine le_min ?_ (by norm_num)
    nlinarith
  · dsimp only
    refine le_min ?_ (by norm_num)
    have hws : ws < 0 := by nlinarith
    rw [abs_of_neg hws]
    nlinarith
  · dsimp only at hs
    rcases hs with hh | hh <;> exact absurd hh (by decide)

/-- Every profile threshold (including the fallback) is at least 3/20. -/
lemma riskProfile_thr (key : String) : 3/20 ≤ (riskProfile key).signal_threshold := by
  unfold riskProfile
  split_ifs <;> norm_num [konservativ, ausgewogen, aggressiv]

/-- Claim C10: for every non-empty candle sequence and any risk-profile key,
the confidence returned by `analyze` lies in [38, 95]; moreover in the BUY and
SELL branches it is strictly above 50. -/
theorem analyze_confidence_range (candles : List Candle) (key : String)
    (_hne : candles ≠ []) :
    ((38 : ℤ) ≤ (analyze candles key).confidence ∧
      (analyze candles key).confidence ≤ 95) ∧
    ((analyze candles key).signal = "KAUFEN" ∨
        (analyze candles key).signal = "VERKAUFEN" →
      (50 : ℤ) < (analyze candles key).confidence) := by
  have hthr := riskProfile_thr key
  have hpos : 0 < (riskProfile key).signal_threshold := lt_of_lt_of_le (by norm_num) hthr
  have hkey : (analyze candles key).confidence =
      pyRound (classify (riskProfile key).signal_threshold (analyze candles key).score).2 :=
    rfl
  have hsig : (analyze candles key).signal =
      (classify (riskProfile key).signal_threshold (analyze candles key).score).1 := rfl
  obtain ⟨hA, hB⟩ :=
    classify_conf_bounds (riskProfile key).signal_threshold (analyze candles key).score hpos
  constructor
  · rw [hkey]
    refine pyRound_bounds _ 38 95 ?_ ?_
    · exact_mod_cast hA
    · exact_mod_cast hB
  · intro hs
    rw [hsig] at hs
    have hC := classify_signal_gt _ _ hthr hs
    have hD := (pyRound_bounds
      (classify (riskProfile key).signal_threshold (analyze candles key).score).2 51 95
      (by push_cast; linarith) (by exact_mod_cast hB)).1
    rw [hkey]
    omega

/-- Claim C10, witness: on a single-candle input with the balanced profile the
rounded confidence lies in [38, 95]. -/
theorem analyze_confidence_range_witness :
    ((38 : ℤ) ≤ (analyze [⟨0, 1, 1, 1, 1, 1⟩] "ausgewogen").confidence ∧
      (analyze [⟨0, 1, 1, 1, 1, 1⟩] "ausgewogen").confidence ≤ 95) ∧
    ((analyze [⟨0, 1, 1, 1, 1, 1⟩] "ausgewogen").signal = "KAUFEN" ∨
        (analyze [⟨0, 1, 1, 1, 1, 1⟩] "ausgewogen").signal = "VERKAUFEN" →
      (50 : ℤ) < (analyze [⟨0, 1, 1, 1, 1, 1⟩] "ausgewogen").confidence) :=
  analyze_confidence_range [⟨0, 1, 1, 1, 1, 1⟩] "ausgewogen" (by decide)
